import Mathlib

set_option maxRecDepth 4000

/-!
Verification of the portfolio edit engine (src/portfolio_manager.py,
src/portfolio_chat.py, src/portfolio_watcher.py).

The Python dictionaries are embedded as Lean structures whose fields are
`Option`-valued: `none` models an absent dictionary key.  String operations
(`.lower()`, `.strip()`, substring tests with `in`) are embedded as executable
functions over `List Char`.  All inputs in this code base are ASCII, so the
ASCII `Char.toLower` matches Python's `str.lower` on the inputs of interest.
-/

/-- ASCII whitespace recognised by Python's `str.strip()` and the regex
class backslash-s: space, tab, newline, carriage return, vertical tab,
form feed. -/
def wsChars : List Char := [' ', '\t', '\n', '\r', '\x0b', '\x0c']

/-- Is `c` one of the whitespace characters? -/
def isWsC (c : Char) : Bool := wsChars.contains c

/-- Lower-case a character list (Python `str.lower` for ASCII input). -/
def lowerL (s : List Char) : List Char := s.map Char.toLower

/-- Does `n` occur at the start of `h`?  (Executable prefix test.) -/
def startsWithB : List Char → List Char → Bool
  | [], _ => true
  | a :: as, hs =>
      match hs with
      | [] => false
      | b :: bs => a == b && startsWithB as bs

/-- Python's substring test `n in h` on strings: does `n` occur
contiguously anywhere in `h`? -/
def subListB : List Char → List Char → Bool
  | n, [] => n.isEmpty
  | n, h :: t => startsWithB n (h :: t) || subListB n t

/-- `subS n h` is Python's `n in h` on `String`s. -/
def subS (n h : String) : Bool := subListB n.toList h.toList

/-- Python `str.strip()`: drop ASCII whitespace from both ends. -/
def pyStripL (s : List Char) : List Char :=
  ((s.dropWhile isWsC).reverse.dropWhile isWsC).reverse

/-- Python `str.strip()` on `String`. -/
def pyStripS (s : String) : String := String.mk (pyStripL s.toList)

/-- An entry of the `services` / `projects` sequences.  Service items
carry no `image` key, which is modelled by `image = none`. -/
structure PortfolioItem where
  title : Option String
  description : Option String
  image : Option String
deriving DecidableEq

/-- The `contact` sub-dictionary of the document. -/
structure ContactInfo where
  email : Option String
  social : Option (List (String × String))
deriving DecidableEq

/-- The portfolio document (`content.json`): a tree of scalar fields and
the two item sequences.  `none` models an absent key. -/
structure Portfolio where
  name : Option String
  title : Option String
  headline : Option String
  bio : Option String
  contact : Option ContactInfo
  services : Option (List PortfolioItem)
  projects : Option (List PortfolioItem)
deriving DecidableEq

/-- The empty document `\x7b\x7d` (every key absent). -/
def emptyPortfolio : Portfolio :=
  ⟨none, none, none, none, none, none, none⟩

/-- `update_bio` (src/portfolio_manager.py lines 162-165). -/
def update_bio (content : Portfolio) (newBio : String) : Portfolio :=
  { content with bio := some newBio }

/-- `update_headline` (src/portfolio_manager.py lines 168-171). -/
def update_headline (content : Portfolio) (newHeadline : String) : Portfolio :=
  { content with headline := some newHeadline }

/-- `update_title` (src/portfolio_manager.py lines 174-177). -/
def update_title (content : Portfolio) (newTitle : String) : Portfolio :=
  { content with title := some newTitle }

/-- `update_email` (src/portfolio_manager.py lines 180-185): create the
`contact` sub-dictionary if absent, then overwrite its `email` key. -/
def update_email (content : Portfolio) (newEmail : String) : Portfolio :=
  let ct := content.contact.getD ⟨none, none⟩
  { content with contact := some { ct with email := some newEmail } }

/-- `add_service` (src/portfolio_manager.py lines 188-196): materialise
the `services` list if absent and append the new item. -/
def add_service (content : Portfolio) (title description : String) : Portfolio :=
  { content with
    services := some ((content.services.getD []) ++
      [⟨some title, some description, none⟩]) }

/-- Default placeholder image used by `add_project`. -/
def defaultProjectImage : String := "assets/project.svg"

/-- `add_project` (src/portfolio_manager.py lines 199-208): materialise
the `projects` list if absent and append the new item (the caller in
`process_command` always passes the default image). -/
def add_project (content : Portfolio) (title description image : String) :
    Portfolio :=
  { content with
    projects := some ((content.projects.getD []) ++
      [⟨some title, some description, some image⟩]) }

/-- The removal match: the item's title (defaulting to `""` when the key
is absent) case-insensitively contains the hint as a substring, i.e.
Python `hint.lower() in item.get('title', '').lower()`. -/
def titleHasHint (hint : String) (p : PortfolioItem) : Bool :=
  subListB (lowerL hint.toList) (lowerL (p.title.getD "").toList)

/-- `remove_project` (src/portfolio_manager.py lines 211-219): keep the
projects whose title does not case-insensitively contain the hint, bind
the (possibly previously absent) `projects` key to the kept list, and
return the number of removed items. -/
def remove_project (content : Portfolio) (projectName : String) :
    Portfolio × Nat :=
  let ps := content.projects.getD []
  let kept := ps.filter (fun p => !(titleHasHint projectName p))
  ({ content with projects := some kept }, ps.length - kept.length)

/-- `remove_service` (src/portfolio_manager.py lines 222-230): same as
`remove_project` on the `services` sequence. -/
def remove_service (content : Portfolio) (serviceName : String) :
    Portfolio × Nat :=
  let ss := content.services.getD []
  let kept := ss.filter (fun s => !(titleHasHint serviceName s))
  ({ content with services := some kept }, ss.length - kept.length)

lemma filterB_idem (p : α → Bool) (l : List α) :
    (l.filter p).filter p = l.filter p := by
  induction l with
  | nil => rfl
  | cons a t ih =>
    by_cases h : p a = true
    · simp [List.filter_cons, h, ih]
    · simp only [Bool.not_eq_true] at h
      simp [List.filter_cons, h, ih]

lemma filterB_length_split (p : α → Bool) (l : List α) :
    (l.filter p).length + (l.filter (fun a => !(p a))).length = l.length := by
  induction l with
  | nil => rfl
  | cons a t ih =>
    by_cases h : p a = true
    · simp [List.filter_cons, h]
      omega
    · simp only [Bool.not_eq_true] at h
      simp [List.filter_cons, h]
      omega

lemma filterB_length_le (p : α → Bool) (l : List α) :
    (l.filter p).length ≤ l.length := by
  have := filterB_length_split p l
  omega

/-- C1: `RemoveItem(kind, h)` keeps exactly the items of the kind's
sequence whose title does not case-insensitively contain `h`, reports the
number of matching (removed) items, the removed count is positive iff the
sequence length strictly decreased (which is what the caller reports as
`changed`), and a second identical removal removes nothing and leaves the
document unchanged.  Stated for both `remove_project` and
`remove_service`. -/
theorem remove_item_semantics (c : Portfolio) (h : String) :
    (remove_project c h).1.projects
        = some ((c.projects.getD []).filter (fun p => !(titleHasHint h p)))
  ∧ (remove_project c h).2
        = ((c.projects.getD []).filter (fun p => titleHasHint h p)).length
  ∧ (0 < (remove_project c h).2
        ↔ ((remove_project c h).1.projects.getD []).length
            < (c.projects.getD []).length)
  ∧ remove_project (remove_project c h).1 h = ((remove_project c h).1, 0)
  ∧ (remove_service c h).1.services
        = some ((c.services.getD []).filter (fun s => !(titleHasHint h s)))
  ∧ (remove_service c h).2
        = ((c.services.getD []).filter (fun s => titleHasHint h s)).length
  ∧ (0 < (remove_service c h).2
        ↔ ((remove_service c h).1.services.getD []).length
            < (c.services.getD []).length)
  ∧ remove_service (remove_service c h).1 h = ((remove_service c h).1, 0) := by
  have hsplitP := filterB_length_split (fun p => titleHasHint h p)
      (c.projects.getD [])
  have hleP := filterB_length_le (fun p => !(titleHasHint h p))
      (c.projects.getD [])
  have hsplitS := filterB_length_split (fun s => titleHasHint h s)
      (c.services.getD [])
  have hleS := filterB_length_le (fun s => !(titleHasHint h s))
      (c.services.getD [])
  refine ⟨rfl, ?_, ?_, ?_, rfl, ?_, ?_, ?_⟩
  · simp only [remove_project]
    omega
  · simp only [remove_project, Option.getD_some]
    omega
  · simp only [remove_project]
    cases c with
    | mk nm ti hd bi ct sv pj =>
      simp [filterB_idem]
  · simp only [remove_service]
    omega
  · simp only [remove_service, Option.getD_some]
    omega
  · simp only [remove_service]
    cases c with
    | mk nm ti hd bi ct sv pj =>
      simp [filterB_idem]

/-- The closed set of edit intents of the spec's §3/§4.4, with `general`
as the catch-all conversational intent. -/
inductive EditIntent where
  | showSummary | updateBio | updateHeadline | updateTitle | updateEmail
  | addProject | removeProject | addService | removeService | general
deriving DecidableEq

/-- Python `any(x in low for x in keys)`. -/
def anyKeyIn (keys : List String) (low : List Char) : Bool :=
  keys.any (fun k => subListB k.toList low)

/-- Python `k in low` for a single keyword. -/
def hasK (k : String) (low : List Char) : Bool := subListB k.toList low

/-- `user_input.lower().strip()` as computed at the top of
`process_command` (src/portfolio_manager.py line 235). -/
def managerLow (input : String) : List Char := pyStripL (lowerL input.toList)

/-- The show-summary keyword test of `process_command`
(src/portfolio_manager.py line 238). -/
def kwShowManager (low : List Char) : Bool :=
  anyKeyIn ["show", "display", "current", "list"] low

/-- The show-summary keyword test of `PortfolioChat.process_message`
(src/portfolio_chat.py line 167). -/
def kwShowChat (low : List Char) : Bool :=
  anyKeyIn ["show", "display", "current", "view"] low

/-- The four-verb test `any(x in low for x in ['update','change','set','make'])`. -/
def kwVerb4 (low : List Char) : Bool :=
  anyKeyIn ["update", "change", "set", "make"] low

/-- The three-verb test `any(x in low for x in ['update','change','set'])`. -/
def kwVerb3 (low : List Char) : Bool :=
  anyKeyIn ["update", "change", "set"] low

/-- The branch-selection structure of `process_command`
(src/portfolio_manager.py lines 233-419): which guard of the if-chain
fires on a given utterance.  Guards are translated in source order with
their exact keyword sets. -/
def process_command_intent (input : String) : EditIntent :=
  let low := managerLow input
  if kwShowManager low then .showSummary
  else if hasK "bio" low && kwVerb4 low then .updateBio
  else if hasK "headline" low && kwVerb4 low then .updateHeadline
  else if hasK "title" low && kwVerb4 low then .updateTitle
  else if hasK "email" low && kwVerb3 low then .updateEmail
  else if hasK "project" low && hasK "add" low then .addProject
  else if hasK "project" low && hasK "remove" low then .removeProject
  else if hasK "service" low && hasK "add" low then .addService
  else if hasK "service" low && hasK "remove" low then .removeService
  else .general

/-- The branch-selection structure of the chat surface: the show check of
`PortfolioChat.process_message` (src/portfolio_chat.py line 167) followed
by the elif chain of `process_llm_response` (lines 256-333), in source
order.  The chat surface lower-cases without stripping. -/
def process_message_intent (input : String) : EditIntent :=
  let low := lowerL input.toList
  if kwShowChat low then .showSummary
  else if hasK "bio" low && kwVerb4 low then .updateBio
  else if hasK "headline" low && kwVerb3 low then .updateHeadline
  else if hasK "title" low && kwVerb3 low then .updateTitle
  else if hasK "project" low && hasK "add" low then .addProject
  else if hasK "service" low && hasK "add" low then .addService
  else if hasK "project" low && hasK "remove" low then .removeProject
  else if hasK "service" low && hasK "remove" low then .removeService
  else if hasK "email" low then .updateEmail
  else .general

/-- Modelled from the spec: the intent decision list exactly as claim C2
and §4.4 state it — ShowSummary on show|display|current|view checked
first, then bio, headline, title, email (bare keyword, no verb), then
add-project, add-service, remove-project, remove-service. -/
def specClassify (input : String) : EditIntent :=
  let low := lowerL input.toList
  if kwShowChat low then .showSummary
  else if hasK "bio" low && kwVerb4 low then .updateBio
  else if hasK "headline" low && kwVerb4 low then .updateHeadline
  else if hasK "title" low && kwVerb4 low then .updateTitle
  else if hasK "email" low then .updateEmail
  else if hasK "project" low && hasK "add" low then .addProject
  else if hasK "service" low && hasK "add" low then .addService
  else if hasK "project" low && hasK "remove" low then .removeProject
  else if hasK "service" low && hasK "remove" low then .removeService
  else .general

/-- A decision list: ordered (predicate, intent) pairs evaluated
top-to-bottom, first match wins, `general` when nothing matches. -/
def firstMatch : List ((String → Bool) × EditIntent) → String → EditIntent
  | [], _ => .general
  | (p, i) :: rs, s => if p s then i else firstMatch rs s

/-- The rules of `process_command` as an explicit decision list, in
source order. -/
def managerRules : List ((String → Bool) × EditIntent) :=
  [ (fun s => kwShowManager (managerLow s), .showSummary),
    (fun s => hasK "bio" (managerLow s) && kwVerb4 (managerLow s), .updateBio),
    (fun s => hasK "headline" (managerLow s) && kwVerb4 (managerLow s), .updateHeadline),
    (fun s => hasK "title" (managerLow s) && kwVerb4 (managerLow s), .updateTitle),
    (fun s => hasK "email" (managerLow s) && kwVerb3 (managerLow s), .updateEmail),
    (fun s => hasK "project" (managerLow s) && hasK "add" (managerLow s), .addProject),
    (fun s => hasK "project" (managerLow s) && hasK "remove" (managerLow s), .removeProject),
    (fun s => hasK "service" (managerLow s) && hasK "add" (managerLow s), .addService),
    (fun s => hasK "service" (managerLow s) && hasK "remove" (managerLow s), .removeService) ]

/-- The manager rules with the claim's relative order of the four
item rules (add-project, add-service, remove-project, remove-service);
everything else as in the code. -/
def managerRulesClaimItemOrder : List ((String → Bool) × EditIntent) :=
  [ (fun s => kwShowManager (managerLow s), .showSummary),
    (fun s => hasK "bio" (managerLow s) && kwVerb4 (managerLow s), .updateBio),
    (fun s => hasK "headline" (managerLow s) && kwVerb4 (managerLow s), .updateHeadline),
    (fun s => hasK "title" (managerLow s) && kwVerb4 (managerLow s), .updateTitle),
    (fun s => hasK "email" (managerLow s) && kwVerb3 (managerLow s), .updateEmail),
    (fun s => hasK "project" (managerLow s) && hasK "add" (managerLow s), .addProject),
    (fun s => hasK "service" (managerLow s) && hasK "add" (managerLow s), .addService),
    (fun s => hasK "project" (managerLow s) && hasK "remove" (managerLow s), .removeProject),
    (fun s => hasK "service" (managerLow s) && hasK "remove" (managerLow s), .removeService) ]

/-- The rules of the chat surface as an explicit decision list, in
source order (email last). -/
def chatRules : List ((String → Bool) × EditIntent) :=
  [ (fun s => kwShowChat (lowerL s.toList), .showSummary),
    (fun s => hasK "bio" (lowerL s.toList) && kwVerb4 (lowerL s.toList), .updateBio),
    (fun s => hasK "headline" (lowerL s.toList) && kwVerb3 (lowerL s.toList), .updateHeadline),
    (fun s => hasK "title" (lowerL s.toList) && kwVerb3 (lowerL s.toList), .updateTitle),
    (fun s => hasK "project" (lowerL s.toList) && hasK "add" (lowerL s.toList), .addProject),
    (fun s => hasK "service" (lowerL s.toList) && hasK "add" (lowerL s.toList), .addService),
    (fun s => hasK "project" (lowerL s.toList) && hasK "remove" (lowerL s.toList), .removeProject),
    (fun s => hasK "service" (lowerL s.toList) && hasK "remove" (lowerL s.toList), .removeService),
    (fun s => hasK "email" (lowerL s.toList), .updateEmail) ]

/-- C2 (counterexample): the claim's keyword set and priority order do
not match the code.  `process_command` triggers its summary on the
keyword `list` (not among the claimed `show|display|current|view`), and
the chat surface checks `email` last, after add-project, while the claim
places email before the item branches. -/
theorem classifier_keywords_cex :
    process_command_intent "list my projects" = EditIntent.showSummary
  ∧ specClassify "list my projects" = EditIntent.general
  ∧ process_message_intent "add a project about email campaigns"
      = EditIntent.addProject
  ∧ specClassify "add a project about email campaigns"
      = EditIntent.updateEmail := by
  exact ⟨rfl, rfl, rfl, rfl⟩

/-- C2 (amended): each classifier is a decision list evaluated in a fixed
priority order, first match wins — `process_command` checks summary
(show|display|current|list), bio, headline, title, email (with an
update/change/set verb), add-project, remove-project, add-service,
remove-service; the chat surface checks summary
(show|display|current|view), bio, headline, title, add-project,
add-service, remove-project, remove-service, email.  Moreover the
manager's placing of remove-project before add-service is extensionally
indistinguishable from the claim's relative item order, because any
utterance matching both remove-project and add-service also matches the
earlier add-project rule. -/
theorem classifier_decision_list (s : String) :
    process_command_intent s = firstMatch managerRules s
  ∧ process_message_intent s = firstMatch chatRules s
  ∧ firstMatch managerRules s = firstMatch managerRulesClaimItemOrder s := by
  refine ⟨rfl, rfl, ?_⟩
  simp only [firstMatch, managerRules, managerRulesClaimItemOrder]
  generalize kwShowManager (managerLow s) = c1
  generalize (hasK "bio" (managerLow s) && kwVerb4 (managerLow s)) = c2
  generalize (hasK "headline" (managerLow s) && kwVerb4 (managerLow s)) = c3
  generalize (hasK "title" (managerLow s) && kwVerb4 (managerLow s)) = c4
  generalize (hasK "email" (managerLow s) && kwVerb3 (managerLow s)) = c5
  generalize hasK "project" (managerLow s) = bp
  generalize hasK "add" (managerLow s) = ba
  generalize hasK "service" (managerLow s) = bs
  generalize hasK "remove" (managerLow s) = br
  revert c1 c2 c3 c4 c5 bp ba bs br
  decide

/-- One atom of the regular expressions used by the code base.  Each
pattern in the source is a plain sequence of these atoms, so matching
with Python's leftmost search and backtracking semantics can be embedded
exactly: greedy pieces try their longest extent first, lazy pieces their
shortest, with full backtracking through the remainder of the pattern. -/
inductive RAtom where
  /-- A literal, matched case-insensitively when `ci` is true. -/
  | lit (ci : Bool) (cs : List Char)
  /-- A character class with a greedy quantifier: `*` when `star` is
  true, `+` when false. -/
  | cls (star : Bool) (f : Char → Bool)
  /-- An optional literal group such as `(?:json)?` (greedy). -/
  | opt (cs : List Char)
  /-- A lazy dot-all capture group: `(.+?)` when `allowEmpty` is false,
  `(.*?)` when true. -/
  | cap (allowEmpty : Bool)

/-- Case-insensitive character comparison. -/
def eqCI (a b : Char) : Bool := a.toLower == b.toLower

/-- Prefix test for a literal atom, case-insensitive when `ci`. -/
def litStartsB (ci : Bool) : List Char → List Char → Bool
  | [], _ => true
  | a :: as, hs =>
      match hs with
      | [] => false
      | b :: bs => (if ci then eqCI a b else a == b) && litStartsB ci as bs

/-- Match a whole atom sequence against a prefix of `s`, returning the
captures and the number of consumed characters of the first match in
Python's backtracking order (earlier atoms' choices have priority;
greedy pieces longest-first, lazy pieces shortest-first). -/
def matchAtoms : List RAtom → List Char → Option (List (List Char) × Nat)
  | [], _ => some ([], 0)
  | .lit ci l :: ps, s =>
      if litStartsB ci l s then
        (matchAtoms ps (s.drop l.length)).map
          (fun r => (r.1, l.length + r.2))
      else none
  | .cls star f :: ps, s =>
      let m := (s.takeWhile f).length
      let lo := if star then 0 else 1
      ((List.range (m + 1 - lo)).map (fun i => m - i)).findSome?
        (fun k =>
          if lo ≤ k then
            (matchAtoms ps (s.drop k)).map (fun r => (r.1, k + r.2))
          else none)
  | .opt l :: ps, s =>
      if litStartsB false l s then
        match matchAtoms ps (s.drop l.length) with
        | some r => some (r.1, l.length + r.2)
        | none => matchAtoms ps s
      else matchAtoms ps s
  | .cap allowEmpty :: ps, s =>
      let lo := if allowEmpty then 0 else 1
      ((List.range (s.length + 1 - lo)).map (fun i => lo + i)).findSome?
        (fun k =>
          if k ≤ s.length then
            (matchAtoms ps (s.drop k)).map
              (fun r => (s.take k :: r.1, k + r.2))
          else none)

/-- Python `re.search`: try the pattern at each start position from the
left; on the first position that matches, return the whole matched text
(group 0) and the captures. -/
def searchPattern (ps : List RAtom) : List Char → Option (List Char × List (List Char))
  | [] =>
      (matchAtoms ps []).map (fun r => (([] : List Char).take r.2, r.1))
  | c :: t =>
      match matchAtoms ps (c :: t) with
      | some r => some (((c :: t).take r.2, r.1))
      | none => searchPattern ps t

/-- The greedy whitespace atom for regex whitespace-star. -/
def wsCls : RAtom := .cls true isWsC

/-- `COMMAND_PATTERNS['bio'|'headline'|'title'|'email']`
(src/portfolio_watcher.py lines 43-46), searched with DOTALL and
IGNORECASE: bracket, literal tag, field name, pipe, one lazy capture. -/
def editPat (field : String) : List RAtom :=
  [.lit true "[PORTFOLIO_EDIT:".toList, wsCls, .lit true field.toList, wsCls,
   .lit true "|".toList, wsCls, .cap false, .lit true "]".toList]

/-- `COMMAND_PATTERNS['add_project'|'add_service']`
(src/portfolio_watcher.py lines 47-48): two lazy captures separated by a
pipe. -/
def addPat (kind : String) : List RAtom :=
  [.lit true "[PORTFOLIO_ADD:".toList, wsCls, .lit true kind.toList, wsCls,
   .lit true "|".toList, wsCls, .cap false, wsCls, .lit true "|".toList, wsCls,
   .cap false, .lit true "]".toList]

/-- `COMMAND_PATTERNS['remove_project'|'remove_service']`
(src/portfolio_watcher.py lines 49-50). -/
def removePat (kind : String) : List RAtom :=
  [.lit true "[PORTFOLIO_REMOVE:".toList, wsCls, .lit true kind.toList, wsCls,
   .lit true "|".toList, wsCls, .cap false, .lit true "]".toList]

/-- Search a single-capture pattern and return its group 1. -/
def findCap1 (pat : List RAtom) (t : List Char) : Option (List Char) :=
  (searchPattern pat t).bind (fun r => r.2.head?)

/-- Search a two-capture pattern and return its groups 1 and 2. -/
def findCap2 (pat : List RAtom) (t : List Char) :
    Option (List Char × List Char) :=
  (searchPattern pat t).bind
    (fun r => match r.2 with
      | [a, b] => some (a, b)
      | _ => none)

/-- A character that is not a brace: the regex class excluding the two
brace characters. -/
def nonBraceC (c : Char) : Bool := !(c == '\x7b' || c == '\x7d')

/-- A character that is not a double quote. -/
def nonQuoteC (c : Char) : Bool := !(c == '"')

/-- The loose JSON scan regex of `extract_json_from_response`
(src/portfolio_manager.py line 130): open brace, brace-free run, a
quoted nonempty key, colon with optional whitespace, a nonempty
brace-free value run, close brace.  Note that no `title` key is
required. -/
def mgrLoosePat : List RAtom :=
  [.lit false ['\x7b'], .cls true nonBraceC, .lit false ['"'],
   .cls false nonQuoteC, .lit false ['"'], wsCls, .lit false [':'], wsCls,
   .cls false nonBraceC, .lit false ['\x7d']]

/-- The loose JSON scan regex of `PortfolioChat.extract_json`
(src/portfolio_chat.py line 372): open brace, brace-free run, the
literal text `"title"`, brace-free run, close brace. -/
def chatLoosePat : List RAtom :=
  [.lit false ['\x7b'], .cls true nonBraceC, .lit false "\"title\"".toList,
   .cls true nonBraceC, .lit false ['\x7d']]

/-- The code-fence regex shared by both extractors
(src/portfolio_manager.py line 122, src/portfolio_chat.py line 364):
three backticks, optional `json` tag, whitespace, a brace-delimited lazy
group, whitespace, three backticks. -/
def fencePat : List RAtom :=
  [.lit false "```".toList, .opt "json".toList, wsCls, .lit false ['\x7b'],
   .cap true, .lit false ['\x7d'], wsCls, .lit false "```".toList]

/-- Group 0 of the manager's loose scan: the brace-delimited candidate
substring it selects, if any. -/
def mgrLooseScan (s : List Char) : Option (List Char) :=
  (searchPattern mgrLoosePat s).map (fun r => r.1)

/-- Group 0 of the chat's loose scan. -/
def chatLooseScan (s : List Char) : Option (List Char) :=
  (searchPattern chatLoosePat s).map (fun r => r.1)

/-- Group 1 of the code-fence scan, re-wrapped in its braces as the
regex's capture `(\x7b.*?\x7d)` does. -/
def fenceScan (s : List Char) : Option (List Char) :=
  (searchPattern fencePat s).bind
    (fun r => r.2.head?.map (fun inner => '\x7b' :: (inner ++ ['\x7d'])))

/-- A JSON scalar value as `json.loads` produces it for the flat objects
selected by the scan regexes (strings, integers, booleans, null; floats
and the rarely-relevant escaped unicode forms are out of the embedded
fragment and make the parse fail). -/
inductive JVal where
  | jstr (s : String)
  | jint (n : Int)
  | jbool (b : Bool)
  | jnull
deriving DecidableEq

/-- One JSON string-escape character. -/
def escPairs : List (Char × Char) :=
  [('"', '"'), ('\\', '\\'), ('/', '/'), ('n', '\n'),
   ('t', '\t'), ('r', '\r'), ('b', '\x08'), ('f', '\x0c')]

/-- Look up one JSON string-escape character. -/
def escChar (c : Char) : Option Char :=
  (escPairs.find? (fun pr => pr.1 == c)).map (fun pr => pr.2)

/-- Parse the body of a JSON string (opening quote already consumed);
returns the content and the remainder after the closing quote. -/
def parseJString : List Char → Option (List Char × List Char)
  | [] => none
  | '"' :: t => some ([], t)
  | '\\' :: c :: t => do
      let e ← escChar c
      let (cs, r) ← parseJString t
      pure (e :: cs, r)
  | '\\' :: [] => none
  | c :: t => (parseJString t).map (fun p => (c :: p.1, p.2))

/-- Parse a nonempty digit run as a natural number. -/
def parseNatL (s : List Char) : Option (Nat × List Char) :=
  let ds := s.takeWhile Char.isDigit
  if ds.isEmpty then none
  else some (ds.foldl (fun n c => n * 10 + (c.toNat - 48)) 0, s.drop ds.length)

/-- Parse one JSON scalar value. -/
def parseJVal : List Char → Option (JVal × List Char)
  | '"' :: t => (parseJString t).map (fun p => (.jstr (String.mk p.1), p.2))
  | 't' :: 'r' :: 'u' :: 'e' :: t => some (.jbool true, t)
  | 'f' :: 'a' :: 'l' :: 's' :: 'e' :: t => some (.jbool false, t)
  | 'n' :: 'u' :: 'l' :: 'l' :: t => some (.jnull, t)
  | '-' :: t => (parseNatL t).map (fun p => (.jint (-(p.1 : Int)), p.2))
  | c :: t =>
      if c.isDigit then (parseNatL (c :: t)).map (fun p => (.jint p.1, p.2))
      else none
  | [] => none

/-- Skip JSON whitespace. -/
def skipWsJ (s : List Char) : List Char := s.dropWhile isWsC

/-- Parse the members of a flat JSON object after the opening brace,
requiring the closing brace to end the input (as `json.loads` requires
the whole candidate to parse). -/
def parseMembers : Nat → List Char → Option (List (String × JVal))
  | 0, _ => none
  | n + 1, s => do
      let s := skipWsJ s
      match s with
      | '"' :: t => do
          let (k, r1) ← parseJString t
          let r2 := skipWsJ r1
          match r2 with
          | ':' :: r3 => do
              let (v, r4) ← parseJVal (skipWsJ r3)
              let r5 := skipWsJ r4
              match r5 with
              | ',' :: r6 => do
                  let rest ← parseMembers n r6
                  pure ((String.mk k, v) :: rest)
              | '\x7d' :: r6 =>
                  if (skipWsJ r6).isEmpty then pure [(String.mk k, v)] else none
              | _ => none
          | _ => none
      | _ => none

/-- `json.loads` restricted to the flat objects the scan regexes can
produce: a brace-delimited object of string keys and scalar values. -/
def parseFlatJson (s : List Char) : Option (List (String × JVal)) :=
  match skipWsJ s with
  | '\x7b' :: t =>
      match skipWsJ t with
      | '\x7d' :: r => if (skipWsJ r).isEmpty then some [] else none
      | t' => parseMembers (t'.length + 1) t'
  | _ => none

/-- `extract_json_from_response` (src/portfolio_manager.py lines
119-137): first try the code-fenced candidate and parse it; if there is
no fenced candidate or it fails to parse, try the loose-scan candidate
and parse it; otherwise no payload. -/
def extract_json_from_response (response : List Char) :
    Option (List (String × JVal)) :=
  let fenced :=
    match fenceScan response with
    | some cand => parseFlatJson cand
    | none => none
  match fenced with
  | some j => some j
  | none =>
      match mgrLooseScan response with
      | some cand => parseFlatJson cand
      | none => none

/-- The state carried through the independent pattern checks of
`process_commands`: the in-memory portfolio and the `changed` flag. -/
abbrev WatchAcc := Portfolio × Bool

/-- The bio check of `process_commands` (src/portfolio_watcher.py lines
148-153): on a match, overwrite `bio` with the stripped capture and set
`changed`. -/
def stepBio (t : List Char) (st : WatchAcc) : WatchAcc :=
  match findCap1 (editPat "bio") t with
  | some c => ({ st.1 with bio := some (String.mk (pyStripL c)) }, true)
  | none => st

/-- The headline check (src/portfolio_watcher.py lines 156-160). -/
def stepHeadline (t : List Char) (st : WatchAcc) : WatchAcc :=
  match findCap1 (editPat "headline") t with
  | some c => ({ st.1 with headline := some (String.mk (pyStripL c)) }, true)
  | none => st

/-- The title check (src/portfolio_watcher.py lines 164-169). -/
def stepTitle (t : List Char) (st : WatchAcc) : WatchAcc :=
  match findCap1 (editPat "title") t with
  | some c => ({ st.1 with title := some (String.mk (pyStripL c)) }, true)
  | none => st

/-- The email check (src/portfolio_watcher.py lines 172-179):
materialise `contact` if absent and overwrite its `email`. -/
def stepEmail (t : List Char) (st : WatchAcc) : WatchAcc :=
  match findCap1 (editPat "email") t with
  | some c =>
      let ct := st.1.contact.getD ⟨none, none⟩
      ({ st.1 with
          contact := some { ct with email := some (String.mk (pyStripL c)) } },
        true)
  | none => st

/-- The add-project check (src/portfolio_watcher.py lines 182-194):
append the captured title/description with the default image,
materialising `projects` if absent. -/
def stepAddProject (t : List Char) (st : WatchAcc) : WatchAcc :=
  match findCap2 (addPat "project") t with
  | some (a, b) =>
      ({ st.1 with
          projects := some ((st.1.projects.getD []) ++
            [⟨some (String.mk (pyStripL a)), some (String.mk (pyStripL b)),
              some defaultProjectImage⟩]) },
        true)
  | none => st

/-- The add-service check (src/portfolio_watcher.py lines 197-207). -/
def stepAddService (t : List Char) (st : WatchAcc) : WatchAcc :=
  match findCap2 (addPat "service") t with
  | some (a, b) =>
      ({ st.1 with
          services := some ((st.1.services.getD []) ++
            [⟨some (String.mk (pyStripL a)), some (String.mk (pyStripL b)),
              none⟩]) },
        true)
  | none => st

/-- The remove-project check (src/portfolio_watcher.py lines 211-221):
filter on lower-cased substring containment of the stripped, lower-cased
capture; `changed` is set only when the list shrank, but the (possibly
absent) key is re-bound in either case. -/
def stepRemoveProject (t : List Char) (st : WatchAcc) : WatchAcc :=
  match findCap1 (removePat "project") t with
  | some c =>
      let nm := lowerL (pyStripL c)
      let old := st.1.projects.getD []
      let kept := old.filter
        (fun p => !(subListB nm (lowerL (p.title.getD "").toList)))
      ({ st.1 with projects := some kept },
        if kept.length < old.length then true else st.2)
  | none => st

/-- The remove-service check (src/portfolio_watcher.py lines 224-234). -/
def stepRemoveService (t : List Char) (st : WatchAcc) : WatchAcc :=
  match findCap1 (removePat "service") t with
  | some c =>
      let nm := lowerL (pyStripL c)
      let old := st.1.services.getD []
      let kept := old.filter
        (fun s => !(subListB nm (lowerL (s.title.getD "").toList)))
      ({ st.1 with services := some kept },
        if kept.length < old.length then true else st.2)
  | none => st

/-- `process_commands` (src/portfolio_watcher.py lines 139-247) on an
already-loaded portfolio, without the trailing save/push I/O: the eight
pattern checks run independently in source order (plain `if`s, not
`elif`s), each applying its mutation when its pattern matches anywhere
in the text; returns the mutated document and the `changed` flag. -/
def process_commands (portfolio : Portfolio) (text : String) : WatchAcc :=
  let t := text.toList
  stepRemoveService t (stepRemoveProject t (stepAddService t
    (stepAddProject t (stepEmail t (stepTitle t (stepHeadline t
      (stepBio t (portfolio, false))))))))

/-- One iteration of the watcher polling loop (src/portfolio_watcher.py
lines 270-283): given the last-seen clipboard value and the freshly read
one, return the new last-seen value and whether `process_commands` was
triggered — only when the snapshot is nonempty, differs from the
last-seen value, and contains the command marker. -/
def watcher_poll_step (lastClipboard current : String) : String × Bool :=
  if current ≠ "" ∧ current ≠ lastClipboard then
    (current, subS "[PORTFOLIO_" current)
  else (lastClipboard, false)

/-- The git subprocess invocations publish can make. -/
inductive GitCmd where
  | status | add | commit | push
deriving DecidableEq

/-- The environment a publish runs against: the output of
`git status --porcelain` and whether each mutating git step succeeds.
(When nothing is pending, a real `git commit` exits nonzero, i.e.
`commitOk = false` in the states reachable with an empty status.) -/
structure GitEnv where
  statusOut : String
  addOk : Bool
  commitOk : Bool
  pushOk : Bool

/-- `push_to_github` (src/portfolio_manager.py lines 46-95): read
`git status --porcelain`; when its stripped output is empty report
success without staging/committing/pushing; otherwise run add, commit,
push in order, stopping with failure at the first step that fails.
Returns the success flag and the git commands invoked. -/
def manager_push_to_github (g : GitEnv) : Bool × List GitCmd :=
  if pyStripS g.statusOut = "" then (true, [.status])
  else if !g.addOk then (false, [.status, .add])
  else if !g.commitOk then (false, [.status, .add, .commit])
  else if !g.pushOk then (false, [.status, .add, .commit, .push])
  else (true, [.status, .add, .commit, .push])

/-- `push_to_github` (src/portfolio_watcher.py lines 87-99): no
pending-changes check — always run add, commit, push, failing at the
first step that fails.  (`PortfolioChat.push_to_github`, lines 134-147
of src/portfolio_chat.py, has the same shape.) -/
def watcher_push_to_github (g : GitEnv) : Bool × List GitCmd :=
  if !g.addOk then (false, [.add])
  else if !g.commitOk then (false, [.add, .commit])
  else if !g.pushOk then (false, [.add, .commit, .push])
  else (true, [.add, .commit, .push])

/-- The observable outcome of a publish: whether the local save
succeeded, whether the remote sync succeeded, and which git commands
ran. -/
structure PublishResult where
  saved : Bool
  synced : Bool
  cmds : List GitCmd
deriving DecidableEq

/-- The manager's publish sequence (src/portfolio_manager.py lines
478-483, then 46-95): save the document, and only if the save succeeded
attempt `push_to_github`.  A failed save aborts before any git
invocation; a failed sync leaves the completed save in place. -/
def manager_publish (saveOk : Bool) (g : GitEnv) : PublishResult :=
  if saveOk then
    let r := manager_push_to_github g
    ⟨true, r.1, r.2⟩
  else ⟨false, false, []⟩

/-- The watcher's publish sequence (src/portfolio_watcher.py lines
236-245, then 87-99): save, and only on a successful save run its
check-free `push_to_github`. -/
def watcher_publish (saveOk : Bool) (g : GitEnv) : PublishResult :=
  if saveOk then
    let r := watcher_push_to_github g
    ⟨true, r.1, r.2⟩
  else ⟨false, false, []⟩

/-- A file-system operation performed by a save. -/
inductive FsOp where
  /-- `open(path, 'w')`: truncate `path` and open it for writing. -/
  | openTrunc (path : String)
  /-- Write `data` to the open `path`. -/
  | write (path : String) (data : String)
  /-- Atomically rename `src` over `dst`. -/
  | rename (src dst : String)
deriving DecidableEq

/-- The backing resource path (`CONTENT_FILE`). -/
def contentFilePath : String := "consulting/content.json"

/-- The file-system trace of `save_portfolio`
(src/portfolio_manager.py lines 39-43): open the backing file itself in
truncating write mode and write the serialised document (`payload`
stands for the `json.dump` output) directly into it. -/
def manager_save_portfolio (payload : String) : List FsOp :=
  [.openTrunc contentFilePath, .write contentFilePath payload]

/-- The file-system trace of `PortfolioChat.save_portfolio`
(src/portfolio_chat.py lines 130-132): identical direct write. -/
def chat_save_portfolio (payload : String) : List FsOp :=
  [.openTrunc contentFilePath, .write contentFilePath payload]

/-- The file-system trace of `save_portfolio`
(src/portfolio_watcher.py lines 76-84): identical direct write (the
try/except only converts an error into a `False` return). -/
def watcher_save_portfolio (payload : String) : List FsOp :=
  [.openTrunc contentFilePath, .write contentFilePath payload]

/-- Is the operation a rename? -/
def FsOp.isRenameOp : FsOp → Bool
  | .rename _ _ => true
  | _ => false

/-- `PortfolioChat.load_portfolio` (src/portfolio_chat.py lines
123-128): the argument is the parse outcome of the backing resource
(`none` models a missing or corrupt file, i.e. `open`/`json.load`
raised); the bare `except` silently returns the empty document in that
case. -/
def chat_load_portfolio (parsed : Option Portfolio) : Portfolio :=
  parsed.getD emptyPortfolio

/-- The load gate of `main` (src/portfolio_manager.py lines 448-457): a
missing or corrupt file aborts the session (`none`) instead of yielding
a document. -/
def manager_load_gate (parsed : Option Portfolio) : Option Portfolio :=
  match parsed with
  | none => none
  | some c => some c

/-- `load_portfolio` + the guard at the top of `process_commands`
(src/portfolio_watcher.py lines 66-73 and 141-143): a failed load yields
no document and `process_commands` returns without mutating anything. -/
def watcher_process_commands_guarded (parsed : Option Portfolio)
    (text : String) : Option Portfolio × Bool :=
  match parsed with
  | none => (none, false)
  | some p =>
      let r := process_commands p text
      (some r.1, r.2)

/-- The regex word class (ASCII): letters, digits, underscore. -/
def isWordC (c : Char) : Bool := c.isAlphanum || c == '_'

/-- The class of the email regex runs: word characters, dot, hyphen. -/
def isEmailC (c : Char) : Bool := isWordC c || c == '.' || c == '-'

/-- The email regex of `process_command` and `process_llm_response`
(src/portfolio_manager.py line 301, src/portfolio_chat.py line 328):
a run of word/dot/hyphen characters, an at sign, another such run, a
dot, a word run. -/
def emailPat : List RAtom :=
  [.cls false isEmailC, .lit false "@".toList, .cls false isEmailC,
   .lit false ".".toList, .cls false isWordC]

/-- `re.search` of the email regex over the original (not lower-cased)
user utterance, returning the matched email text. -/
def findEmail (input : String) : Option String :=
  (searchPattern emailPat input.toList).map (fun r => String.mk r.1)

/-- The email branch of `process_command` (src/portfolio_manager.py
lines 299-311): extract an email from the original utterance; on a match
apply it only after interactive confirmation; with no match leave the
document untouched and report no change. -/
def manager_email_branch (input : String) (confirm : Bool) (c : Portfolio) :
    Portfolio × Bool :=
  match findEmail input with
  | some e => if confirm then (update_email c e, true) else (c, false)
  | none => (c, false)

/-- The email branch of `PortfolioChat.process_llm_response`
(src/portfolio_chat.py lines 327-333): same extraction from the original
utterance, applied without confirmation. -/
def chat_email_step (input : String) (c : Portfolio) : Portfolio × Bool :=
  match findEmail input with
  | some e => (update_email c e, true)
  | none => (c, false)

/-- C3: a corrupt (unparsable) backing resource — modelled by the parse
outcome `none` — is silently coerced to the empty document by
`PortfolioChat.load_portfolio`, and the chat session then proceeds with
that empty document; by contrast the manager's `main` aborts, and the
watcher's `process_commands` refuses to mutate after a failed load. -/
theorem corrupt_load_coerces_empty :
    chat_load_portfolio none = emptyPortfolio
  ∧ (∀ text : String,
      watcher_process_commands_guarded none text = (none, false))
  ∧ manager_load_gate none = none :=
  ⟨rfl, fun _ => rfl, rfl⟩

/-- C6 (counterexample): with no pending changes (empty porcelain
status, so a real `git commit` fails for lack of anything to commit),
the watcher's publish still invokes `git add` and `git commit` and
reports a failed sync, contradicting the claim that a publish with
nothing pending returns `synced=true` without invoking the
synchronization commands. -/
theorem watcher_publish_cex :
    watcher_publish true ⟨"", true, false, true⟩
      = ⟨true, false, [GitCmd.add, GitCmd.commit]⟩ := rfl

/-- C6 (amended): a failed save aborts either publish before any git
invocation with `saved=false`; the manager's publish, when the stripped
porcelain status is empty, reports `synced=true` having run only the
status query; a successful save is reported as `saved=true` regardless
of the sync outcome; and the watcher's publish always begins by staging
(it has no pending-changes check). -/
theorem publish_sequence (g : GitEnv) :
    manager_publish false g = ⟨false, false, []⟩
  ∧ watcher_publish false g = ⟨false, false, []⟩
  ∧ (pyStripS g.statusOut = "" →
      manager_publish true g = ⟨true, true, [GitCmd.status]⟩)
  ∧ (manager_publish true g).saved = true
  ∧ (watcher_publish true g).saved = true
  ∧ (watcher_publish true g).cmds.head? = some GitCmd.add := by
  refine ⟨rfl, rfl, ?_, rfl, rfl, ?_⟩
  · intro hs
    simp [manager_publish, manager_push_to_github, hs]
  · simp only [watcher_publish, watcher_push_to_github]
    split_ifs <;> rfl

/-- C6 (witness): the manager's publish in a clean-status environment. -/
theorem publish_sequence_inst :
    manager_publish true ⟨"", true, true, true⟩
      = ⟨true, true, [GitCmd.status]⟩ :=
  (publish_sequence ⟨"", true, true, true⟩).2.2.1 (by decide)

/-- C8 (counterexample): the save trace at a concrete document contains
no rename at all and its first operation truncates the backing resource
itself, contradicting the claimed write-to-temporary-then-rename
mechanism. -/
theorem save_not_atomic_cex :
    manager_save_portfolio "\x7b\x7d"
      = [FsOp.openTrunc contentFilePath,
         FsOp.write contentFilePath "\x7b\x7d"]
  ∧ (manager_save_portfolio "\x7b\x7d").all (fun op => !op.isRenameOp)
      = true :=
  ⟨rfl, rfl⟩

/-- C8 (amended): all three `save_portfolio` implementations open the
backing resource itself in truncating write mode and write the
serialised document directly into it; no temporary location and no
rename are involved, so the overwrite is not atomic. -/
theorem save_direct_write (payload : String) :
    manager_save_portfolio payload
      = [FsOp.openTrunc contentFilePath, FsOp.write contentFilePath payload]
  ∧ chat_save_portfolio payload
      = [FsOp.openTrunc contentFilePath, FsOp.write contentFilePath payload]
  ∧ watcher_save_portfolio payload
      = [FsOp.openTrunc contentFilePath, FsOp.write contentFilePath payload]
  ∧ (manager_save_portfolio payload).all (fun op => !op.isRenameOp)
      = true :=
  ⟨rfl, rfl, rfl, rfl⟩

/-- C9: the watcher poll step triggers processing only when the fresh
snapshot is nonempty and differs from the last-seen value, and an
immediately repeated poll of the same snapshot never triggers
processing again. -/
theorem watcher_change_detection (last cur : String) :
    ((watcher_poll_step last cur).2 = true → cur ≠ "" ∧ cur ≠ last)
  ∧ (watcher_poll_step (watcher_poll_step last cur).1 cur).2 = false := by
  by_cases hc : cur ≠ "" ∧ cur ≠ last
  · constructor
    · intro _
      exact hc
    · simp [watcher_poll_step, hc]
  · constructor
    · intro hp
      simp [watcher_poll_step, hc] at hp
    · simp [watcher_poll_step, hc]

/-- C9 (witness): a fresh command-bearing snapshot is processed once and
not re-processed on the next poll of the unchanged clipboard. -/
theorem watcher_change_detection_inst :
    ("[PORTFOLIO_EDIT: bio | x]" : String) ≠ ""
  ∧ ("[PORTFOLIO_EDIT: bio | x]" : String) ≠ ""
  ∧ (watcher_poll_step
      (watcher_poll_step "" "[PORTFOLIO_EDIT: bio | x]").1
      "[PORTFOLIO_EDIT: bio | x]").2 = false := by
  have h := watcher_change_detection "" "[PORTFOLIO_EDIT: bio | x]"
  have h1 := h.1 (by decide)
  exact ⟨h1.1, h1.2, h.2⟩

/-- A concrete document with scalar fields set but both item sequences
and the contact map absent. -/
def noListsDoc : Portfolio :=
  ⟨some "Sadikul Saber", some "AI Consultant", none, none, none, none, none⟩

/-- C10: removing from a document that lacks the target sequence key
removes nothing (`changed=false` at every call site, removed count 0)
and re-binds the key to the empty sequence, leaving every other field
unchanged; the watcher's remove branch behaves the same way, shown on a
concrete remove token. -/
theorem remove_materializes_key (c : Portfolio) (h : String) :
    (c.projects = none →
      remove_project c h = ({ c with projects := some [] }, 0))
  ∧ (c.services = none →
      remove_service c h = ({ c with services := some [] }, 0))
  ∧ process_commands noListsDoc "[PORTFOLIO_REMOVE: project | alpha]"
      = ({ noListsDoc with projects := some [] }, false) := by
  refine ⟨?_, ?_, by decide⟩
  · intro hn
    simp [remove_project, hn]
  · intro hn
    simp [remove_service, hn]

/-- C10 (witness): the removal on a concrete document with no `projects`
key. -/
theorem remove_materializes_key_inst :
    remove_project noListsDoc "orbit"
      = ({ noListsDoc with projects := some [] }, 0) :=
  (remove_materializes_key noListsDoc "orbit").1 rfl


lemma findSome_mem_of_eq_some {α β : Type} {l : List α} {f : α → Option β}
    {b : β} (h : l.findSome? f = some b) : ∃ a, a ∈ l ∧ f a = some b := by
  induction l with
  | nil => simp [List.findSome?] at h
  | cons x t ih =>
    rw [List.findSome?_cons] at h
    cases hfx : f x with
    | some v =>
      refine ⟨x, List.mem_cons_self x t, ?_⟩
      rw [hfx]
      rw [hfx] at h
      exact h
    | none =>
      rw [hfx] at h
      obtain ⟨a, ha, hfa⟩ := ih h
      exact ⟨a, List.mem_cons_of_mem x ha, hfa⟩

lemma litStartsB_take {l s : List Char} (h : litStartsB false l s = true) :
    s.take l.length = l := by
  induction l generalizing s with
  | nil => simp
  | cons a as ih =>
    cases s with
    | nil => simp [litStartsB] at h
    | cons b bs =>
      have h' : (a == b) = true ∧ litStartsB false as bs = true := by
        simpa [litStartsB] using h
      have hab : a = b := eq_of_beq h'.1
      subst hab
      simp [List.take_succ_cons, ih h'.2]

/-- If a successful atom-sequence match consumed `n` characters and the
sequence contains an exact literal atom, the consumed segment contains
that literal contiguously. -/
lemma matchAtoms_lit_sub :
    ∀ (ps : List RAtom) (s : List Char) (cs : List (List Char)) (n : Nat)
      (l : List Char),
      matchAtoms ps s = some (cs, n) → RAtom.lit false l ∈ ps →
      ∃ a b, s.take n = a ++ l ++ b := by
  intro ps
  induction ps with
  | nil =>
    intro s cs n l _ hmem
    exact absurd hmem (List.not_mem_nil _)
  | cons atom ps ih =>
    intro s cs n l hm hmem
    cases atom with
    | lit ci l' =>
      simp only [matchAtoms] at hm
      by_cases hst : litStartsB ci l' s = true
      · rw [if_pos hst, Option.map_eq_some'] at hm
        obtain ⟨⟨r1, r2⟩, hr, heq⟩ := hm
        obtain ⟨rfl, rfl⟩ : r1 = cs ∧ l'.length + r2 = n := by
          simpa using heq
        rcases List.mem_cons.mp hmem with hhead | htail
        · injection hhead with hci hl
          subst hci
          subst hl
          refine ⟨[], (s.drop l.length).take r2, ?_⟩
          rw [List.take_add, litStartsB_take hst]
          simp
        · obtain ⟨a, b, hab⟩ := ih (s.drop l'.length) r1 r2 l hr htail
          refine ⟨s.take l'.length ++ a, b, ?_⟩
          rw [List.take_add, hab]
          simp
      · rw [if_neg hst] at hm
        exact absurd hm (by simp)
    | cls star f =>
      simp only [matchAtoms] at hm
      obtain ⟨k, _, hk⟩ := findSome_mem_of_eq_some hm
      by_cases hlo : (if star then 0 else 1) ≤ k
      · rw [if_pos hlo, Option.map_eq_some'] at hk
        obtain ⟨⟨r1, r2⟩, hr, heq⟩ := hk
        obtain ⟨rfl, rfl⟩ : r1 = cs ∧ k + r2 = n := by
          simpa using heq
        have hmem' : RAtom.lit false l ∈ ps := by
          rcases List.mem_cons.mp hmem with hhead | htail
          · exact absurd hhead (by simp)
          · exact htail
        obtain ⟨a, b, hab⟩ := ih (s.drop k) r1 r2 l hr hmem'
        refine ⟨s.take k ++ a, b, ?_⟩
        rw [List.take_add, hab]
        simp
      · rw [if_neg hlo] at hk
        exact absurd hk (by simp)
    | opt l' =>
      simp only [matchAtoms] at hm
      have hmem' : RAtom.lit false l ∈ ps := by
        rcases List.mem_cons.mp hmem with hhead | htail
        · exact absurd hhead (by simp)
        · exact htail
      by_cases hst : litStartsB false l' s = true
      · rw [if_pos hst] at hm
        cases hinner : matchAtoms ps (s.drop l'.length) with
        | some r =>
          obtain ⟨r1, r2⟩ := r
          rw [hinner] at hm
          obtain ⟨rfl, rfl⟩ : r1 = cs ∧ l'.length + r2 = n := by
            simpa using hm
          obtain ⟨a, b, hab⟩ := ih (s.drop l'.length) r1 r2 l hinner hmem'
          refine ⟨s.take l'.length ++ a, b, ?_⟩
          rw [List.take_add, hab]
          simp
        | none =>
          rw [hinner] at hm
          exact ih s cs n l hm hmem'
      · rw [if_neg hst] at hm
        exact ih s cs n l hm hmem'
    | cap ae =>
      simp only [matchAtoms] at hm
      obtain ⟨k, _, hk⟩ := findSome_mem_of_eq_some hm
      by_cases hub : k ≤ s.length
      · rw [if_pos hub, Option.map_eq_some'] at hk
        obtain ⟨⟨r1, r2⟩, hr, heq⟩ := hk
        obtain ⟨hcs, rfl⟩ : s.take k :: r1 = cs ∧ k + r2 = n := by
          simpa using heq
        have hmem' : RAtom.lit false l ∈ ps := by
          rcases List.mem_cons.mp hmem with hhead | htail
          · exact absurd hhead (by simp)
          · exact htail
        obtain ⟨a, b, hab⟩ := ih (s.drop k) r1 r2 l hr hmem'
        refine ⟨s.take k ++ a, b, ?_⟩
        rw [List.take_add, hab]
        simp
      · rw [if_neg hub] at hk
        exact absurd hk (by simp)

/-- A successful leftmost search for a pattern containing an exact
literal atom returns a group 0 containing that literal contiguously. -/
lemma searchPattern_lit_sub :
    ∀ (s : List Char) (ps : List RAtom) (g : List Char)
      (cs : List (List Char)) (l : List Char),
      searchPattern ps s = some (g, cs) → RAtom.lit false l ∈ ps →
      ∃ a b, g = a ++ l ++ b := by
  intro s
  induction s with
  | nil =>
    intro ps g cs l hs hmem
    simp only [searchPattern, Option.map_eq_some'] at hs
    obtain ⟨⟨r1, r2⟩, hr, heq⟩ := hs
    obtain ⟨rfl, rfl⟩ : ([] : List Char).take r2 = g ∧ r1 = cs := by
      simpa using heq
    exact matchAtoms_lit_sub ps [] r1 r2 l hr hmem
  | cons c t ih =>
    intro ps g cs l hs hmem
    simp only [searchPattern] at hs
    cases hm : matchAtoms ps (c :: t) with
    | some r =>
      obtain ⟨r1, r2⟩ := r
      rw [hm] at hs
      obtain ⟨rfl, rfl⟩ : (c :: t).take r2 = g ∧ r1 = cs := by
        simpa using hs
      exact matchAtoms_lit_sub ps (c :: t) r1 r2 l hm hmem
    | none =>
      rw [hm] at hs
      exact ih ps g cs l hs hmem

/-- C4 (amended): the chat's loose JSON scan only accepts brace-delimited
candidates containing the literal text `"title"`; the manager's loose
scan requires only some quoted key followed by a colon and a value, so
its acceptance does not imply a title key (the counterexample), the
title requirement being enforced afterwards by the caller. -/
theorem chat_loose_scan_requires_title (s o : List Char) :
    chatLooseScan s = some o →
    ∃ a b, o = a ++ ("\"title\"").toList ++ b := by
  intro h
  simp only [chatLooseScan, Option.map_eq_some'] at h
  obtain ⟨⟨r1, r2⟩, hr, heq⟩ := h
  subst heq
  have hmem : RAtom.lit false ("\"title\"").toList ∈ chatLoosePat := by
    unfold chatLoosePat
    exact List.mem_cons_of_mem _ (List.mem_cons_of_mem _
      (List.mem_cons_self _ _))
  exact searchPattern_lit_sub s chatLoosePat r1 r2 ("\"title\"").toList hr hmem

/-- A response text that is a lone brace-delimited object with a
`description` key and no `title` key. -/
def looseCexInput : List Char := ("\x7b\"description\": \"x\"\x7d").toList

/-- C4 (counterexample): the manager's extractor accepts, through its
loose JSON scan, a brace-delimited substring with no `title` key at all
— `extract_json_from_response` on `\x7b"description": "x"\x7d` (which
has no code fence, so step 2 applies) parses and returns the object,
and the text does not even contain the letters `title`. -/
theorem loose_scan_no_title_cex :
    extract_json_from_response looseCexInput
      = some [("description", JVal.jstr "x")]
  ∧ mgrLooseScan looseCexInput = some looseCexInput
  ∧ subListB ("title").toList looseCexInput = false :=
  ⟨rfl, rfl, rfl⟩

/-- C4 (witness): the title-containment guarantee applied to a concrete
accepted candidate. -/
theorem chat_loose_scan_requires_title_inst :
    ∃ a b, ("\x7b\"title\": \"T\"\x7d").toList
      = a ++ ("\"title\"").toList ++ b :=
  chat_loose_scan_requires_title
    ("pre \x7b\"title\": \"T\"\x7d post").toList
    ("\x7b\"title\": \"T\"\x7d").toList
    (by decide)

lemma stepTitle_pres (t : List Char) (st : WatchAcc) :
    (stepTitle t st).1.bio = st.1.bio
  ∧ (stepTitle t st).1.headline = st.1.headline := by
  cases h : findCap1 (editPat "title") t <;> simp [stepTitle, h]

lemma stepEmail_pres (t : List Char) (st : WatchAcc) :
    (stepEmail t st).1.bio = st.1.bio
  ∧ (stepEmail t st).1.headline = st.1.headline := by
  cases h : findCap1 (editPat "email") t <;> simp [stepEmail, h]

lemma stepAddProject_pres (t : List Char) (st : WatchAcc) :
    (stepAddProject t st).1.bio = st.1.bio
  ∧ (stepAddProject t st).1.headline = st.1.headline := by
  cases h : findCap2 (addPat "project") t with
  | none => simp [stepAddProject, h]
  | some r =>
    obtain ⟨a, b⟩ := r
    simp [stepAddProject, h]

lemma stepAddService_pres (t : List Char) (st : WatchAcc) :
    (stepAddService t st).1.bio = st.1.bio
  ∧ (stepAddService t st).1.headline = st.1.headline := by
  cases h : findCap2 (addPat "service") t with
  | none => simp [stepAddService, h]
  | some r =>
    obtain ⟨a, b⟩ := r
    simp [stepAddService, h]

lemma stepRemoveProject_pres (t : List Char) (st : WatchAcc) :
    (stepRemoveProject t st).1.bio = st.1.bio
  ∧ (stepRemoveProject t st).1.headline = st.1.headline := by
  cases h : findCap1 (removePat "project") t <;> simp [stepRemoveProject, h]

lemma stepRemoveService_pres (t : List Char) (st : WatchAcc) :
    (stepRemoveService t st).1.bio = st.1.bio
  ∧ (stepRemoveService t st).1.headline = st.1.headline := by
  cases h : findCap1 (removePat "service") t <;> simp [stepRemoveService, h]

lemma tail_pres (t : List Char) (st : WatchAcc) :
    (stepRemoveService t (stepRemoveProject t (stepAddService t
      (stepAddProject t (stepEmail t (stepTitle t st)))))).1.bio = st.1.bio
  ∧ (stepRemoveService t (stepRemoveProject t (stepAddService t
      (stepAddProject t (stepEmail t (stepTitle t st)))))).1.headline
      = st.1.headline := by
  have p1 := stepTitle_pres t st
  have p2 := stepEmail_pres t (stepTitle t st)
  have p3 := stepAddProject_pres t (stepEmail t (stepTitle t st))
  have p4 := stepAddService_pres t
    (stepAddProject t (stepEmail t (stepTitle t st)))
  have p5 := stepRemoveProject_pres t (stepAddService t
    (stepAddProject t (stepEmail t (stepTitle t st))))
  have p6 := stepRemoveService_pres t (stepRemoveProject t (stepAddService t
    (stepAddProject t (stepEmail t (stepTitle t st)))))
  exact ⟨(((((p6.1.trans p5.1).trans p4.1).trans p3.1).trans p2.1).trans p1.1),
         (((((p6.2.trans p5.2).trans p4.2).trans p3.2).trans p2.2).trans p1.2)⟩

/-- The document of the claim's concrete scenario: an empty `projects`
list, all other keys absent. -/
def emptyProjectsDoc : Portfolio :=
  ⟨none, none, none, none, none, none, some []⟩

/-- C5: the command-token parser applies every token kind that matches
in a single pass.  Concretely, the claim's test vector — a
`PORTFOLIO_ADD: project` token against an empty `projects` list — yields
exactly one item with the captured title and description and the default
placeholder image, with `changed = true`.  Generally, whenever both a
bio token and a headline token occur anywhere in one text, both
mutations are applied in the same pass (the branches are independent
`if`s, not an `elif` chain). -/
theorem token_parser_independent :
    process_commands emptyProjectsDoc
        "[PORTFOLIO_ADD: project | Orbit | A tracking tool]"
      = ({ emptyProjectsDoc with
            projects := some [⟨some "Orbit", some "A tracking tool",
              some defaultProjectImage⟩] }, true)
  ∧ ∀ (p : Portfolio) (text : String) (b h : List Char),
      findCap1 (editPat "bio") text.toList = some b →
      findCap1 (editPat "headline") text.toList = some h →
      (process_commands p text).1.bio = some (String.mk (pyStripL b))
        ∧ (process_commands p text).1.headline
            = some (String.mk (pyStripL h)) := by
  constructor
  · decide
  · intro p text b h hb hh
    simp only [process_commands]
    have hb' : findCap1 (editPat "bio") text.data = some b := hb
    have hh' : findCap1 (editPat "headline") text.data = some h := hh
    have h1 : stepBio text.toList (p, false)
        = ({ p with bio := some (String.mk (pyStripL b)) }, true) := by
      simp [stepBio, hb']
    have h2 : stepHeadline text.toList
        ({ p with bio := some (String.mk (pyStripL b)) }, true)
        = ({ { p with bio := some (String.mk (pyStripL b)) } with
              headline := some (String.mk (pyStripL h)) }, true) := by
      simp [stepHeadline, hh']
    rw [h1, h2]
    exact tail_pres text.toList _

/-- C5 (witness): two distinct edit tokens in one text block are both
applied in a single pass. -/
theorem token_parser_independent_inst :
    (process_commands emptyPortfolio
      "[PORTFOLIO_EDIT: bio | New bio text][PORTFOLIO_EDIT: headline | Fresh headline]").1.bio
        = some "New bio text"
  ∧ (process_commands emptyPortfolio
      "[PORTFOLIO_EDIT: bio | New bio text][PORTFOLIO_EDIT: headline | Fresh headline]").1.headline
        = some "Fresh headline" := by
  have h := token_parser_independent.2 emptyPortfolio
    "[PORTFOLIO_EDIT: bio | New bio text][PORTFOLIO_EDIT: headline | Fresh headline]"
    ("New bio text").toList ("Fresh headline").toList (by decide) (by decide)
  exact h

/-- C7 (counterexample): an utterance containing `email` (and an
email-shaped address) is not classified `UpdateEmail` by
`process_command` — its email branch also demands an update/change/set
verb, so the utterance falls through to the general-chat branch. -/
theorem email_intent_cex :
    hasK "email" (managerLow "email me at bob@example.com") = true
  ∧ process_command_intent "email me at bob@example.com"
      = EditIntent.general :=
  ⟨rfl, rfl⟩

/-- C7 (amended): `process_command` selects its email branch only when
the utterance contains `email` together with one of update/change/set
(and no earlier branch matched); when the email branch of either surface
runs on an utterance with no email-shaped substring, the document is
returned untouched with `changed = false`. -/
theorem email_update_guarded (input : String) (c : Portfolio)
    (conf : Bool) :
    (process_command_intent input = EditIntent.updateEmail →
        hasK "email" (managerLow input) = true
      ∧ kwVerb3 (managerLow input) = true)
  ∧ (findEmail input = none →
        manager_email_branch input conf c = (c, false)
      ∧ chat_email_step input c = (c, false)) := by
  constructor
  · intro h
    simp only [process_command_intent] at h
    by_cases c1 : kwShowManager (managerLow input) = true
    · rw [if_pos c1] at h
      exact absurd h (by decide)
    rw [if_neg c1] at h
    by_cases c2 : (hasK "bio" (managerLow input)
        && kwVerb4 (managerLow input)) = true
    · rw [if_pos c2] at h
      exact absurd h (by decide)
    rw [if_neg c2] at h
    by_cases c3 : (hasK "headline" (managerLow input)
        && kwVerb4 (managerLow input)) = true
    · rw [if_pos c3] at h
      exact absurd h (by decide)
    rw [if_neg c3] at h
    by_cases c4 : (hasK "title" (managerLow input)
        && kwVerb4 (managerLow input)) = true
    · rw [if_pos c4] at h
      exact absurd h (by decide)
    rw [if_neg c4] at h
    by_cases c5 : (hasK "email" (managerLow input)
        && kwVerb3 (managerLow input)) = true
    · simpa using c5
    rw [if_neg c5] at h
    by_cases c6 : (hasK "project" (managerLow input)
        && hasK "add" (managerLow input)) = true
    · rw [if_pos c6] at h
      exact absurd h (by decide)
    rw [if_neg c6] at h
    by_cases c7 : (hasK "project" (managerLow input)
        && hasK "remove" (managerLow input)) = true
    · rw [if_pos c7] at h
      exact absurd h (by decide)
    rw [if_neg c7] at h
    by_cases c8 : (hasK "service" (managerLow input)
        && hasK "add" (managerLow input)) = true
    · rw [if_pos c8] at h
      exact absurd h (by decide)
    rw [if_neg c8] at h
    by_cases c9 : (hasK "service" (managerLow input)
        && hasK "remove" (managerLow input)) = true
    · rw [if_pos c9] at h
      exact absurd h (by decide)
    rw [if_neg c9] at h
    exact absurd h (by decide)
  · intro hn
    refine ⟨?_, ?_⟩ <;> simp [manager_email_branch, chat_email_step, hn]

/-- C7 (witness): the guarded email branch on a concrete verb-bearing
utterance with no email-shaped substring. -/
theorem email_update_guarded_inst :
    (hasK "email" (managerLow "update my email please") = true
      ∧ kwVerb3 (managerLow "update my email please") = true)
  ∧ manager_email_branch "update my email please" true noListsDoc
      = (noListsDoc, false)
  ∧ chat_email_step "update my email please" noListsDoc
      = (noListsDoc, false) := by
  have h := email_update_guarded "update my email please" noListsDoc true
  exact ⟨h.1 (by decide), (h.2 (by decide)).1, (h.2 (by decide)).2⟩
